import Mathlib

/-!
Shallow embedding of the core of `src/app.py` (card-lookup service):
the sliding-window rate limiter, the upstream fetch routine with
retry/backoff, the queue worker's batch loop, the bounded enqueue, the
lookup endpoint, and the concurrency-limiting semaphore.

Machine conventions: clock readings are integers (`Int`); attempt
outcomes of the upstream HTTP call are an explicit oracle indexed by
attempt number; Python exceptions that escape a function are `Except.error`.
-/

namespace Config

/-- `Config.MAX_RETRIES` in `src/app.py`. -/
def MAX_RETRIES : Nat := 3

/-- `Config.MAX_QUEUE_SIZE` in `src/app.py`. -/
def MAX_QUEUE_SIZE : Nat := 1000

/-- `Config.RATE_LIMIT` in `src/app.py`. -/
def RATE_LIMIT : Nat := 10

/-- `Config.RATE_LIMIT_PERIOD` in `src/app.py`. -/
def RATE_LIMIT_PERIOD : Int := 60

/-- `Config.MAX_CONCURRENT_REQUESTS` in `src/app.py`. -/
def MAX_CONCURRENT_REQUESTS : Nat := 5

/-- `Config.BATCH_SIZE` in `src/app.py`. -/
def BATCH_SIZE : Nat := 10

end Config

/-- `CardData.__init__` in `src/app.py` (lines 82-89): the record type
returned by the fetcher. -/
structure CardData where
  name : String
  oracle_text : String
  mana_cost : String
  type_line : String
  set_name : String
  found : Bool
deriving DecidableEq, Repr

/-- `CardData(name=card_name, found=False)`: keyword construction with the
declared defaults, so all descriptive fields are the empty string. -/
def notFoundData (cardName : String) : CardData :=
  ⟨cardName, "", "", "", "", false⟩

/-- Outcome of one upstream attempt inside `fetch_card_info`
(one iteration of the retry loop, lines 113-146 of `src/app.py`):
`ok` is a 2xx response with its JSON fields (a missing key is `none`),
`notFound` is `response.status == 404`, `respError s` is a raised
`ClientResponseError` with status `s`, `netError` covers
`ServerDisconnectedError`, `TooManyRedirects` and `asyncio.TimeoutError`,
and `unexpected` is any other `Exception`. -/
inductive Attempt
  | ok (name oracle_text mana_cost type_line set_name : Option String)
  | notFound
  | respError (status : Nat)
  | netError
  | unexpected
deriving DecidableEq

/-- The retry loop of `CardManager.fetch_card_info` (lines 112-148 of
`src/app.py`), desugared from `for attempt in range(MAX_RETRIES)`:
`attempt` is the current index and `remaining = maxRetries - attempt` the
iterations left (zero means the loop is exhausted and line 148 runs).
Returns the record, the number of upstream calls issued, and the list of
backoff sleeps (`2 ** attempt`, lines 138 and 143) in order. -/
def fetchLoop (oracle : Nat → Attempt) (cardName : String) (maxRetries : Nat) :
    Nat → Nat → CardData × Nat × List Nat
  | _, 0 => (notFoundData cardName, 0, [])
  | attempt, remaining + 1 =>
    match oracle attempt with
    | .notFound => (notFoundData cardName, 1, [])
    | .ok n o m t s =>
      (⟨n.getD "", o.getD "", m.getD "", t.getD "", s.getD "", true⟩, 1, [])
    | .respError status =>
      if status = 404 then (notFoundData cardName, 1, [])
      else if attempt = maxRetries - 1 then (notFoundData cardName, 1, [])
      else
        let r := fetchLoop oracle cardName maxRetries (attempt + 1) remaining
        (r.1, r.2.1 + 1, 2 ^ attempt :: r.2.2)
    | .netError =>
      if attempt = maxRetries - 1 then (notFoundData cardName, 1, [])
      else
        let r := fetchLoop oracle cardName maxRetries (attempt + 1) remaining
        (r.1, r.2.1 + 1, 2 ^ attempt :: r.2.2)
    | .unexpected => (notFoundData cardName, 1, [])

/-- `CardManager.fetch_card_info` (lines 105-148 of `src/app.py`).
`sessionOk` is `self.session is not None and not self.session.closed`;
when it is false the function raises `RuntimeError` (lines 106-107),
modelled as `Except.error`. Otherwise the retry loop runs from attempt 0
with `MAX_RETRIES` iterations available. -/
def fetch_card_info (sessionOk : Bool) (maxRetries : Nat) (oracle : Nat → Attempt)
    (cardName : String) : Except String (CardData × Nat × List Nat) :=
  if sessionOk then Except.ok (fetchLoop oracle cardName maxRetries 0 maxRetries)
  else Except.error "CardManager session is not initialized or has been closed"

/-- An attempt outcome the retry loop classifies as transient (a
`ClientResponseError` whose status is not 404, a disconnect, a redirect
loop, or a timeout). -/
def isTransient : Attempt → Bool
  | .respError status => status ≠ 404
  | .netError => true
  | _ => false

/-- An attempt outcome carrying HTTP-404 semantics: a 404 response status
(line 116) or a `ClientResponseError` with status 404 (line 131). -/
def is404 : Attempt → Bool
  | .notFound => true
  | .respError status => status = 404
  | _ => false

example : fetch_card_info true 3 (fun _ => Attempt.netError) "x" =
    Except.ok (notFoundData "x", 3, [1, 2]) := rfl

example : fetch_card_info true 3 (fun i => if i = 0 then Attempt.netError else Attempt.notFound)
    "x" = Except.ok (notFoundData "x", 2, [1]) := rfl

/-- `RateLimiter.is_allowed` (lines 60-66 of `src/app.py`): prune the
window with `now - t < self.period`, then admit (appending `now`) exactly
when fewer than `limit` timestamps remain. Returns the boolean result and
the new `self.requests` list. -/
def isAllowed (limit : Nat) (period : Int) (now : Int) (requests : List Int) :
    Bool × List Int :=
  let pruned := requests.filter (fun t => now - t < period)
  if pruned.length < limit then (true, pruned ++ [now]) else (false, pruned)

/-- A sequence of `is_allowed` calls at the given clock readings, threading
the limiter's `self.requests` state; returns the list of results and the
final window. -/
def runLimiter (limit : Nat) (period : Int) : List Int → List Int → List Bool × List Int
  | requests, [] => ([], requests)
  | requests, now :: rest =>
    let step := isAllowed limit period now requests
    let r := runLimiter limit period step.2 rest
    (step.1 :: r.1, r.2)

example : (runLimiter 3 60 [] [0, 1, 2, 3]).1 = [true, true, true, false] := by decide

example : (isAllowed 3 60 61 [0, 1, 2]).1 = true := by decide

/-- Association-list model of the shared `card_cache` (a `TTLCache`); only
membership and insertion are relevant to the queue worker and the lookup
endpoint, so entries are whatever the cache currently holds. -/
def cacheLookup : List (String × CardData) → String → Option CardData
  | [], _ => none
  | (k, v) :: rest, n => if k = n then some v else cacheLookup rest n

/-- `card_cache[card_name] = card_info` on the association-list model. -/
def cacheInsert (cache : List (String × CardData)) (n : String) (v : CardData) :
    List (String × CardData) :=
  (n, v) :: cache

/-- The per-batch body of `QueueWorker.process_queue` (lines 195-210 of
`src/app.py`). `fetchO` gives, per name, either the fetched record or the
exception the `except` clause catches. Each item runs
`try: if not cached, fetch and store / except: log / finally: task_done`;
the second component collects, in order, the names for which
`queue.task_done()` ran. -/
def processBatch (fetchO : String → Except String CardData)
    (cache : List (String × CardData)) : List String → List (String × CardData) × List String
  | [] => (cache, [])
  | n :: rest =>
    let newCache :=
      match cacheLookup cache n with
      | some _ => cache
      | none =>
        match fetchO n with
        | .ok info => cacheInsert cache n info
        | .error _ => cache
    let r := processBatch fetchO newCache rest
    (r.1, n :: r.2)

/-- Outcome of `asyncio.wait_for(self.queue.put(card_name), timeout=5.0)`
inside `QueueWorker.add_to_queue` (line 221 of `src/app.py`): the put
completed, `QueueFull` was raised, the five-second wait timed out, or some
other exception was raised. -/
inductive PutOutcome
  | placed
  | queueFull
  | timedOut
  | otherError
deriving DecidableEq

/-- `QueueWorker.add_to_queue` (lines 219-231 of `src/app.py`): the
try/except cascade over the put outcome. An uncaught exception would be
`Except.error`; every arm of the Python code returns a boolean. -/
def add_to_queue : PutOutcome → Except String Bool
  | .placed => Except.ok true
  | .queueFull => Except.ok false
  | .timedOut => Except.ok false
  | .otherError => Except.ok false

/-- Semantics of the timed blocking put on the bounded queue
(`asyncio.Queue(maxsize=MAX_QUEUE_SIZE)`): with `qlen` items queued, the
put completes at once below capacity; at capacity it blocks, completing
only if space frees within the five-second timeout (`spaceFreed`), and
otherwise `wait_for` raises `TimeoutError`. -/
def waitForPut (qlen maxSize : Nat) (spaceFreed : Bool) : PutOutcome :=
  if qlen < maxSize then .placed
  else if spaceFreed then .placed
  else .timedOut

/-- One per-name result dict built by the `fetch_cards` handler (lines
301-315 of `src/app.py`): a full record for a cache hit, or a name/status
pair for a miss that was handed to `add_to_queue`. -/
inductive LookupEntry
  | card (name oracle_text mana_cost type_line set_name status : String)
  | pending (name status : String)
deriving DecidableEq

/-- The per-name loop of the `fetch_cards` handler (lines 301-315 of
`src/app.py`). `enq k` is the boolean returned by the `k`-th
`queue_worker.add_to_queue` call of this request; the second component of
the result counts those calls, so it threads the next call's index. -/
def fetchCards (cache : List (String × CardData)) (enq : Nat → Bool) :
    List String → Nat → List LookupEntry × Nat
  | [], k => ([], k)
  | n :: rest, k =>
    match cacheLookup cache n with
    | some c =>
      let r := fetchCards cache enq rest k
      (.card c.name c.oracle_text c.mana_cost c.type_line c.set_name
        (if c.found then "found" else "not found") :: r.1, r.2)
    | none =>
      let queued := enq k
      let r := fetchCards cache enq rest (k + 1)
      (.pending n (if queued then "queued" else "queue full") :: r.1, r.2)

/-- Number of names in the list missing from the cache: the number of
enqueue attempts `fetch_cards` makes for that list. -/
def uncachedCount (cache : List (String × CardData)) : List String → Nat
  | [] => 0
  | n :: rest =>
    match cacheLookup cache n with
    | some _ => uncachedCount cache rest
    | none => uncachedCount cache rest + 1

/-- Counting abstraction of `CardManager`'s permit pool
(`asyncio.Semaphore(Config.MAX_CONCURRENT_REQUESTS)`, line 94 of
`src/app.py`): how many semaphore permits are free, and how many
`fetch_card_info` invocations are waiting on `async with self.semaphore`,
hold a permit (in flight), or have completed. -/
structure SemState where
  permits : Nat
  waiting : Nat
  inFlight : Nat
  completed : Nat
deriving DecidableEq

/-- Interleaving steps of invocations sharing one `CardManager`:
a waiting invocation acquires a permit only when one is free
(`async with self.semaphore` suspends otherwise), and an in-flight
invocation releases its permit when its body exits. -/
inductive SemStep : SemState → SemState → Prop
  | acquire (s : SemState) (hw : 0 < s.waiting) (hp : 0 < s.permits) :
      SemStep s ⟨s.permits - 1, s.waiting - 1, s.inFlight + 1, s.completed⟩
  | release (s : SemState) (hf : 0 < s.inFlight) :
      SemStep s ⟨s.permits + 1, s.waiting, s.inFlight - 1, s.completed + 1⟩

/-- A burst of `tasks` concurrent invocations against a freshly
constructed `CardManager`: the semaphore starts with
`MAX_CONCURRENT_REQUESTS` permits and every invocation waiting. -/
def semInit (tasks : Nat) : SemState :=
  ⟨Config.MAX_CONCURRENT_REQUESTS, tasks, 0, 0⟩

/-- States the burst can reach under any interleaving. -/
def SemReachable (tasks : Nat) (s : SemState) : Prop :=
  Relation.ReflTransGen SemStep (semInit tasks) s

/-! ### Helper lemmas about the fetch retry loop -/

/-- Every record the retry loop returns is either the keyword-default
not-found record or has `found = true`. -/
theorem fetchLoop_shape (oracle : Nat → Attempt) (cardName : String) (maxRetries : Nat) :
    ∀ remaining attempt,
      (fetchLoop oracle cardName maxRetries attempt remaining).1 = notFoundData cardName ∨
      (fetchLoop oracle cardName maxRetries attempt remaining).1.found = true := by
  intro remaining
  induction remaining with
  | zero => intro attempt; left; rfl
  | succ m ih =>
    intro attempt
    simp only [fetchLoop]
    cases h : oracle attempt with
    | ok n o mc t s => right; rfl
    | notFound => left; rfl
    | unexpected => left; rfl
    | respError status =>
      by_cases h4 : status = 404
      · simp [h4]
      · by_cases hl : attempt = maxRetries - 1
        · simp [h4, hl]
        · simp only [h4, hl, if_false]
          exact ih (attempt + 1)
    | netError =>
      by_cases hl : attempt = maxRetries - 1
      · simp [hl]
      · simp only [hl, if_false]
        exact ih (attempt + 1)

/-- If every attempt from `attempt` on fails transiently, the loop uses up
all `remaining` iterations, sleeping `2 ^ i` after each non-final one, and
returns the not-found record. -/
theorem fetchLoop_all_transient (oracle : Nat → Attempt) (cardName : String) (maxRetries : Nat) :
    ∀ remaining attempt, attempt + remaining = maxRetries →
      (∀ i, attempt ≤ i → i < maxRetries → isTransient (oracle i) = true) →
      fetchLoop oracle cardName maxRetries attempt remaining =
        (notFoundData cardName, remaining, (List.range' attempt (remaining - 1)).map (2 ^ ·)) := by
  intro remaining
  induction remaining with
  | zero => intro attempt hsum htr; rfl
  | succ m ih =>
    intro attempt hsum htr
    have hai : attempt < maxRetries := by omega
    have htra := htr attempt (le_refl _) hai
    simp only [fetchLoop]
    cases h : oracle attempt with
    | ok n o mc t s => rw [h] at htra; simp [isTransient] at htra
    | notFound => rw [h] at htra; simp [isTransient] at htra
    | unexpected => rw [h] at htra; simp [isTransient] at htra
    | respError status =>
      rw [h] at htra
      have h4 : ¬ status = 404 := by simpa [isTransient] using htra
      by_cases hl : attempt = maxRetries - 1
      · have hm : m = 0 := by omega
        subst hm
        simp only [h4, hl, if_false, if_true]
        rfl
      · have hm : 1 ≤ m := by omega
        have hrec := ih (attempt + 1) (by omega) (fun i hi1 hi2 => htr i (by omega) hi2)
        simp only [h4, hl, if_false, hrec]
        have hr : List.range' attempt (m + 1 - 1) = attempt :: List.range' (attempt + 1) (m - 1) := by
          have : m + 1 - 1 = (m - 1) + 1 := by omega
          rw [this, List.range'_succ]
        rw [hr]
        rfl
    | netError =>
      by_cases hl : attempt = maxRetries - 1
      · have hm : m = 0 := by omega
        subst hm
        simp only [hl, if_true]
        rfl
      · have hm : 1 ≤ m := by omega
        have hrec := ih (attempt + 1) (by omega) (fun i hi1 hi2 => htr i (by omega) hi2)
        simp only [hl, if_false, hrec]
        have hr : List.range' attempt (m + 1 - 1) = attempt :: List.range' (attempt + 1) (m - 1) := by
          have : m + 1 - 1 = (m - 1) + 1 := by omega
          rw [this, List.range'_succ]
        rw [hr]
        rfl

/-- If attempts before `k` fail transiently and attempt `k` observes 404
semantics, the loop stops at attempt `k`: `k - attempt + 1` further
upstream calls, backoff sleeps only for the transient attempts. -/
theorem fetchLoop_until_404 (oracle : Nat → Attempt) (cardName : String) (maxRetries k : Nat) :
    ∀ remaining attempt, attempt + remaining = maxRetries → attempt ≤ k → k < maxRetries →
      (∀ i, attempt ≤ i → i < k → isTransient (oracle i) = true) →
      is404 (oracle k) = true →
      fetchLoop oracle cardName maxRetries attempt remaining =
        (notFoundData cardName, k + 1 - attempt, (List.range' attempt (k - attempt)).map (2 ^ ·)) := by
  intro remaining
  induction remaining with
  | zero => intro attempt hsum hak hkm htr h404; omega
  | succ m ih =>
    intro attempt hsum hak hkm htr h404
    by_cases hek : attempt = k
    · subst hek
      simp only [fetchLoop]
      cases h : oracle attempt with
      | ok n o mc t s => rw [h] at h404; simp [is404] at h404
      | netError => rw [h] at h404; simp [is404] at h404
      | unexpected => rw [h] at h404; simp [is404] at h404
      | notFound =>
        have : attempt + 1 - attempt = 1 := by omega
        rw [this]
        have h0 : attempt - attempt = 0 := by omega
        rw [h0]
        rfl
      | respError status =>
        rw [h] at h404
        have h4 : status = 404 := by simpa [is404] using h404
        simp only [h4, if_true]
        have : attempt + 1 - attempt = 1 := by omega
        rw [this]
        have h0 : attempt - attempt = 0 := by omega
        rw [h0]
        rfl
    · have halt : attempt < k := by omega
      have htra := htr attempt (le_refl _) halt
      have hl : ¬ attempt = maxRetries - 1 := by omega
      simp only [fetchLoop]
      cases h : oracle attempt with
      | ok n o mc t s => rw [h] at htra; simp [isTransient] at htra
      | notFound => rw [h] at htra; simp [isTransient] at htra
      | unexpected => rw [h] at htra; simp [isTransient] at htra
      | respError status =>
        rw [h] at htra
        have h4 : ¬ status = 404 := by simpa [isTransient] using htra
        have hrec := ih (attempt + 1) (by omega) (by omega) hkm
          (fun i hi1 hi2 => htr i (by omega) hi2) h404
        simp only [h4, hl, if_false, hrec]
        have hr : List.range' attempt (k - attempt) =
            attempt :: List.range' (attempt + 1) (k - (attempt + 1)) := by
          have : k - attempt = (k - (attempt + 1)) + 1 := by omega
          rw [this, List.range'_succ]
        rw [hr]
        have : k + 1 - (attempt + 1) + 1 = k + 1 - attempt := by omega
        rw [this]
        rfl
      | netError =>
        have hrec := ih (attempt + 1) (by omega) (by omega) hkm
          (fun i hi1 hi2 => htr i (by omega) hi2) h404
        simp only [hl, if_false, hrec]
        have hr : List.range' attempt (k - attempt) =
            attempt :: List.range' (attempt + 1) (k - (attempt + 1)) := by
          have : k - attempt = (k - (attempt + 1)) + 1 := by omega
          rw [this, List.range'_succ]
        rw [hr]
        have : k + 1 - (attempt + 1) + 1 = k + 1 - attempt := by omega
        rw [this]
        rfl

/-! ### Claims about the fetcher -/

/-- C1 (counterexample): `fetch_card_info` can raise to its caller: invoked
with the session uninitialized or closed (lines 106-107 of `src/app.py`)
it raises `RuntimeError` instead of returning a `CardRecord`. -/
theorem fetch_raises_on_closed_session_cex :
    fetch_card_info false Config.MAX_RETRIES (fun _ => Attempt.netError) "Black Lotus" =
      Except.error "CardManager session is not initialized or has been closed" := rfl

/-- C1 (amended): for every name, every retry budget and every behaviour of
the upstream attempts, a call to `fetch_card_info` on an open, initialized
session never raises: it returns a `CardRecord`, and every failure mode,
including unexpected internal errors, resolves into the record carrying the
submitted name with `found = false` (the only other possibility being a
successful record with `found = true`). -/
theorem fetch_never_raises_when_session_open (maxRetries : Nat) (oracle : Nat → Attempt)
    (cardName : String) :
    ∃ out, fetch_card_info true maxRetries oracle cardName = Except.ok out ∧
      (out.1.found = true ∨ (out.1 = notFoundData cardName ∧ out.1.found = false)) := by
  refine ⟨fetchLoop oracle cardName maxRetries 0 maxRetries, rfl, ?_⟩
  rcases fetchLoop_shape oracle cardName maxRetries maxRetries 0 with h | h
  · right
    exact ⟨h, by rw [h]; rfl⟩
  · left
    exact h

/-- C2: if every attempt fails with a transient error, `fetch_card_info`
makes exactly `maxRetries` attempts, sleeps `2 ^ attempt` seconds between
consecutive attempts (delays `2^0, ..., 2^(maxRetries-2)`), and returns the
submitted name with `found = false`. -/
theorem fetch_all_transient_retries (maxRetries : Nat) (oracle : Nat → Attempt)
    (cardName : String)
    (htr : ∀ i, i < maxRetries → isTransient (oracle i) = true) :
    fetch_card_info true maxRetries oracle cardName =
      Except.ok (notFoundData cardName, maxRetries,
        (List.range (maxRetries - 1)).map (2 ^ ·)) := by
  have h := fetchLoop_all_transient oracle cardName maxRetries maxRetries 0 (by omega)
    (fun i _ hi => htr i hi)
  simp only [fetch_card_info, if_true, h, List.range_eq_range']

/-- C2 (witness): with the configured `MAX_RETRIES = 3` and an upstream that
times out on every attempt, `fetch_card_info` reports not-found after 3
attempts with backoff sleeps of 1 and 2 seconds. -/
theorem fetch_all_transient_retries_witness :
    fetch_card_info true Config.MAX_RETRIES (fun _ => Attempt.netError) "Black Lotus" =
      Except.ok (notFoundData "Black Lotus", 3, [1, 2]) := by
  have h := fetch_all_transient_retries Config.MAX_RETRIES (fun _ => Attempt.netError)
    "Black Lotus" (fun i _ => rfl)
  simpa using h

/-- C5 (counterexample): when a transient error precedes the 404, the 404 is
still terminal but the total number of upstream calls is 2, not 1: the claim
that exactly one upstream call is attempted regardless of which attempt
observes the 404 is false. -/
theorem fetch_notfound_call_count_cex :
    fetch_card_info true Config.MAX_RETRIES
      (fun i => if i = 0 then Attempt.netError else Attempt.notFound) "Xyzzyxnonexistent" =
      Except.ok (notFoundData "Xyzzyxnonexistent", 2, [1]) := rfl

/-- C5 (amended): a 404 is terminal and definitive: the attempt observing it
returns `CardRecord{name, found:false}` immediately with no retry after it,
so the total number of upstream calls is the number of preceding transient
attempts plus one — in particular exactly one when the first attempt
observes the 404. -/
theorem fetch_notfound_terminal (maxRetries : Nat) (oracle : Nat → Attempt)
    (cardName : String) (k : Nat) (hk : k < maxRetries)
    (htr : ∀ i, i < k → isTransient (oracle i) = true)
    (h404 : is404 (oracle k) = true) :
    fetch_card_info true maxRetries oracle cardName =
      Except.ok (notFoundData cardName, k + 1, (List.range k).map (2 ^ ·)) := by
  have h := fetchLoop_until_404 oracle cardName maxRetries k maxRetries 0 (by omega)
    (by omega) hk (fun i _ hi => htr i hi) h404
  simp only [fetch_card_info, if_true, h, List.range_eq_range', Nat.add_sub_cancel,
    Nat.sub_zero]

/-- C5 (witness): upstream always answers 404: the very first attempt is
terminal, exactly one upstream call, no backoff sleeps. -/
theorem fetch_notfound_terminal_witness :
    fetch_card_info true Config.MAX_RETRIES (fun _ => Attempt.notFound) "Xyzzyxnonexistent" =
      Except.ok (notFoundData "Xyzzyxnonexistent", 1, []) := by
  have h := fetch_notfound_terminal Config.MAX_RETRIES (fun _ => Attempt.notFound)
    "Xyzzyxnonexistent" 0 (by decide) (fun i hi => absurd hi (Nat.not_lt_zero i)) rfl
  simpa using h

/-- C8: every record `fetch_card_info` returns with `found = false` has all
four descriptive fields equal to the empty string. -/
theorem card_record_not_found_fields_empty (sessionOk : Bool) (maxRetries : Nat)
    (oracle : Nat → Attempt) (cardName : String) (out : CardData × Nat × List Nat)
    (hout : fetch_card_info sessionOk maxRetries oracle cardName = Except.ok out)
    (hnf : out.1.found = false) :
    out.1.oracle_text = "" ∧ out.1.mana_cost = "" ∧ out.1.type_line = "" ∧
      out.1.set_name = "" := by
  cases sessionOk with
  | false => exact absurd hout (by simp [fetch_card_info])
  | true =>
    have hout2 : fetchLoop oracle cardName maxRetries 0 maxRetries = out := by
      simpa [fetch_card_info] using hout
    have hshape := fetchLoop_shape oracle cardName maxRetries maxRetries 0
    rw [hout2] at hshape
    cases hshape with
    | inl h => rw [h]; exact ⟨rfl, rfl, rfl, rfl⟩
    | inr h => rw [h] at hnf; cases hnf

/-- C8 (witness): an unexpected internal error on the first attempt yields
the not-found record for the submitted name, and its descriptive fields are
all empty. -/
theorem card_record_not_found_fields_empty_witness :
    (notFoundData "Black Lotus").oracle_text = "" ∧
      (notFoundData "Black Lotus").mana_cost = "" ∧
      (notFoundData "Black Lotus").type_line = "" ∧
      (notFoundData "Black Lotus").set_name = "" :=
  card_record_not_found_fields_empty true Config.MAX_RETRIES (fun _ => Attempt.unexpected)
    "Black Lotus" (notFoundData "Black Lotus", 1, []) rfl rfl

/-! ### Claims about the queue worker -/

/-- C4: in the batch loop of `process_queue`, every dequeued item is marked
complete (`task_done`) exactly once, whatever the cache contents and
whatever each per-item fetch does — including raising: the `task_done` trace
equals the batch itself, so no item is skipped and no error aborts the rest
of the batch. -/
theorem process_queue_task_done_exactly_once (fetchO : String → Except String CardData)
    (cache : List (String × CardData)) (batch : List String) :
    (processBatch fetchO cache batch).2 = batch := by
  induction batch generalizing cache with
  | nil => rfl
  | cons n rest ih =>
    simp only [processBatch]
    rw [ih]

/-- C6: `add_to_queue` never raises — for every outcome of the timed put,
including unexpected exceptions, it returns a boolean — and under the timed
blocking-put semantics it returns true exactly when the item was placed
(immediately below capacity, or because space freed within the wait), and
false when the queue stays at `MAX_QUEUE_SIZE` until the wait times out. -/
theorem add_to_queue_total_bounded :
    (∀ o, ∃ b, add_to_queue o = Except.ok b) ∧
    (∀ qlen spaceFreed, add_to_queue (waitForPut qlen Config.MAX_QUEUE_SIZE spaceFreed) =
      Except.ok (if qlen < Config.MAX_QUEUE_SIZE then true else spaceFreed)) := by
  constructor
  · intro o
    cases o <;> exact ⟨_, rfl⟩
  · intro qlen spaceFreed
    by_cases h : qlen < Config.MAX_QUEUE_SIZE
    · simp [waitForPut, add_to_queue, h]
    · cases spaceFreed <;> simp [waitForPut, add_to_queue, h]

/-! ### Helper lemmas about the rate limiter -/

/-- `runLimiter` on no calls leaves the window unchanged. -/
theorem runLimiter_nil (L : Nat) (P : Int) (w : List Int) :
    runLimiter L P w [] = ([], w) := rfl

/-- Results of one `is_allowed` call followed by the rest of the sequence. -/
theorem runLimiter_cons_fst (L : Nat) (P : Int) (w : List Int) (now : Int) (rest : List Int) :
    (runLimiter L P w (now :: rest)).1 =
      (isAllowed L P now w).1 :: (runLimiter L P (isAllowed L P now w).2 rest).1 := rfl

/-- Final window of one `is_allowed` call followed by the rest of the
sequence. -/
theorem runLimiter_cons_snd (L : Nat) (P : Int) (w : List Int) (now : Int) (rest : List Int) :
    (runLimiter L P w (now :: rest)).2 =
      (runLimiter L P (isAllowed L P now w).2 rest).2 := rfl

/-- The boolean `is_allowed` returns: whether the pruned window is below the
limit. -/
theorem isAllowed_fst (L : Nat) (P : Int) (now : Int) (w : List Int) :
    (isAllowed L P now w).1 = decide ((w.filter (fun t => now - t < P)).length < L) := by
  unfold isAllowed
  by_cases hc : (w.filter (fun t => now - t < P)).length < L <;> simp [hc]

/-- The window `is_allowed` leaves behind: the pruned window, with `now`
appended exactly on admission. -/
theorem isAllowed_snd (L : Nat) (P : Int) (now : Int) (w : List Int) :
    (isAllowed L P now w).2 =
      if (w.filter (fun t => now - t < P)).length < L
      then w.filter (fun t => now - t < P) ++ [now]
      else w.filter (fun t => now - t < P) := by
  unfold isAllowed
  by_cases hc : (w.filter (fun t => now - t < P)).length < L <;> simp [hc]

/-- Every timestamp in the window `is_allowed` leaves behind is within
`period` of that call's clock reading. -/
theorem isAllowed_mem_fresh (L : Nat) (P : Int) (hP : 0 < P) (now : Int) (w : List Int) :
    ∀ t ∈ (isAllowed L P now w).2, now - t < P := by
  intro t ht
  rw [isAllowed_snd] at ht
  by_cases hc : (w.filter (fun s => now - s < P)).length < L
  · rw [if_pos hc] at ht
    rcases List.mem_append.mp ht with h | h
    · exact of_decide_eq_true (List.mem_filter.mp h).2
    · have : t = now := by simpa using h
      subst this
      omega
  · rw [if_neg hc] at ht
    exact of_decide_eq_true (List.mem_filter.mp ht).2

/-- The window never exceeds `limit` entries once it starts at or below
`limit`. -/
theorem runLimiter_length_aux (L : Nat) (P : Int) :
    ∀ (ts w : List Int), w.length ≤ L → (runLimiter L P w ts).2.length ≤ L := by
  intro ts
  induction ts with
  | nil => intro w h; simpa [runLimiter_nil] using h
  | cons now rest ih =>
    intro w h
    rw [runLimiter_cons_snd]
    apply ih
    rw [isAllowed_snd]
    by_cases hc : (w.filter (fun s => now - s < P)).length < L
    · rw [if_pos hc]
      simp only [List.length_append, List.length_cons, List.length_nil]
      omega
    · rw [if_neg hc]
      have := List.length_filter_le (fun s => decide (now - s < P)) w
      omega

/-- After the last call of a sequence, every window entry is within `period`
of that call's clock reading. -/
theorem runLimiter_fresh_aux (L : Nat) (P : Int) (hP : 0 < P) :
    ∀ (ts w : List Int) (last : Int), ts.getLast? = some last →
      ∀ t ∈ (runLimiter L P w ts).2, last - t < P := by
  intro ts
  induction ts with
  | nil => intro w last h; cases h
  | cons now rest ih =>
    intro w last hlast t ht
    cases rest with
    | nil =>
      have hl : now = last := by simpa using hlast
      subst hl
      rw [runLimiter_cons_snd] at ht
      rw [runLimiter_nil] at ht
      exact isAllowed_mem_fresh L P hP now w t ht
    | cons b bs =>
      have hlast2 : (b :: bs).getLast? = some last := by
        rwa [List.getLast?_cons_cons] at hlast
      rw [runLimiter_cons_snd] at ht
      exact ih (isAllowed L P now w).2 last hlast2 t ht

/-- During a burst whose clock readings all fit in one window, pruning never
removes anything, so starting from window `w` the calls are admitted exactly
while the window is below `limit`, and the final window is `w` plus the
first admitted readings. -/
theorem runLimiter_burst_aux (L : Nat) (P : Int) :
    ∀ (ts w : List Int),
      (∀ x ∈ w ++ ts, ∀ y ∈ w ++ ts, y - x < P) →
      (runLimiter L P w ts).1 =
        (List.range ts.length).map (fun i => decide (w.length + i < L)) ∧
      (runLimiter L P w ts).2 = w ++ ts.take (L - w.length) := by
  intro ts
  induction ts with
  | nil =>
    intro w hp
    exact ⟨rfl, by simp [runLimiter_nil]⟩
  | cons t rest ih =>
    intro w hp
    have hmemt : t ∈ w ++ t :: rest :=
      List.mem_append_right _ (List.mem_cons_self t rest)
    have hfilter : w.filter (fun s => decide (t - s < P)) = w :=
      List.filter_eq_self.mpr fun s hs =>
        decide_eq_true (hp s (List.mem_append_left _ hs) t hmemt)
    have hwt : (w ++ [t]).length = w.length + 1 := by simp
    by_cases hlen : w.length < L
    · have hstep : (isAllowed L P t w).2 = w ++ [t] := by
        rw [isAllowed_snd, hfilter, if_pos hlen]
      have hp2 : ∀ x ∈ (w ++ [t]) ++ rest, ∀ y ∈ (w ++ [t]) ++ rest, y - x < P := by
        intro x hx y hy
        rw [List.append_assoc, List.singleton_append] at hx hy
        exact hp x hx y hy
      have hrec := ih (w ++ [t]) hp2
      constructor
      · rw [runLimiter_cons_fst, hstep, hrec.1, isAllowed_fst, hfilter]
        rw [List.length_cons, List.range_succ_eq_map, List.map_cons, List.map_map]
        congr 1
        apply List.map_congr_left
        intro i _
        simp only [Function.comp_apply, hwt]
        exact decide_eq_decide.mpr (by omega)
      · rw [runLimiter_cons_snd, hstep, hrec.2, hwt]
        have h1 : L - w.length = (L - (w.length + 1)) + 1 := by omega
        rw [h1, List.take_succ_cons, List.append_assoc, List.singleton_append]
    · have hstep : (isAllowed L P t w).2 = w := by
        rw [isAllowed_snd, hfilter, if_neg hlen]
      have hsub : ∀ z, z ∈ w ++ rest → z ∈ w ++ t :: rest := by
        intro z hz
        rcases List.mem_append.mp hz with h | h
        · exact List.mem_append_left _ h
        · exact List.mem_append_right _ (List.mem_cons_of_mem t h)
      have hp2 : ∀ x ∈ w ++ rest, ∀ y ∈ w ++ rest, y - x < P := by
        intro x hx y hy
        exact hp x (hsub x hx) y (hsub y hy)
      have hrec := ih w hp2
      constructor
      · rw [runLimiter_cons_fst, hstep, hrec.1, isAllowed_fst, hfilter]
        rw [List.length_cons, List.range_succ_eq_map, List.map_cons, List.map_map]
        congr 1
        apply List.map_congr_left
        intro i _
        simp only [Function.comp_apply]
        exact decide_eq_decide.mpr (by omega)
      · rw [runLimiter_cons_snd, hstep, hrec.2]
        have h0 : L - w.length = 0 := by omega
        rw [h0]
        simp

/-! ### Claims about the rate limiter -/

/-- C3: for a limiter `(limit=L, period=P)` and a fresh window, any burst of
calls whose clock readings all lie within one `P`-second window is admitted
for exactly its first `L` calls — the `(L+1)`-th is rejected — the window
then holds the first `L` admission times, and once `P` seconds elapse from
the oldest admitted call (the rest of a full window still being fresh) the
next call is admitted: capacity frees by one. -/
theorem rate_limiter_burst_admission (L : Nat) (P : Int) (ts : List Int)
    (hspan : ∀ x ∈ ts, ∀ y ∈ ts, y - x < P) :
    (runLimiter L P [] ts).1 = (List.range ts.length).map (fun i => decide (i < L)) ∧
    (runLimiter L P [] ts).2 = ts.take L ∧
    (∀ (t0 : Int) (rest : List Int) (u : Int), (t0 :: rest).length = L →
      P ≤ u - t0 → (∀ t ∈ rest, u - t < P) →
      (isAllowed L P u (t0 :: rest)).1 = true) := by
  have hbase := runLimiter_burst_aux L P ts [] (by simpa using hspan)
  refine ⟨?_, ?_, ?_⟩
  · rw [hbase.1]
    apply List.map_congr_left
    intro i _
    simp only [List.length_nil, Nat.zero_add]
  · simpa using hbase.2
  · intro t0 rest u hlen hold hfresh
    have hf0 : decide (u - t0 < P) = false := decide_eq_false (by omega)
    have hfr : rest.filter (fun s => decide (u - s < P)) = rest :=
      List.filter_eq_self.mpr fun s hs => decide_eq_true (hfresh s hs)
    rw [isAllowed_fst]
    rw [List.filter_cons, hf0]
    simp only [if_false, hfr, Bool.false_eq_true]
    apply decide_eq_true
    have : rest.length + 1 = L := by simpa using hlen
    omega

/-- C3 (witness): the configured limiter shape on a concrete burst: with
`limit = 3`, four calls in one window admit exactly the first three. -/
theorem rate_limiter_burst_admission_witness :
    (runLimiter 3 60 [] [0, 1, 2, 3]).1 = [true, true, true, false] := by
  have h := (rate_limiter_burst_admission 3 60 [0, 1, 2, 3] (by decide)).1
  rw [h]
  rfl

/-- C10: starting from a fresh limiter, after every sequence of calls the
window holds at most `limit` entries, each within `period` of the last
call's clock reading; and a call that returns false leaves exactly the
pruned window — it never appends, so the window never grows on rejection. -/
theorem rate_limiter_window_invariant (L : Nat) (P : Int) (hP : 0 < P) (ts : List Int) :
    (runLimiter L P [] ts).2.length ≤ L ∧
    (∀ last, ts.getLast? = some last → ∀ t ∈ (runLimiter L P [] ts).2, last - t < P) ∧
    (∀ (w : List Int) (now : Int), (isAllowed L P now w).1 = false →
      (isAllowed L P now w).2 = w.filter (fun t => now - t < P) ∧
      (isAllowed L P now w).2.length ≤ w.length) := by
  refine ⟨runLimiter_length_aux L P ts [] (by simp), ?_, ?_⟩
  · intro last hlast t ht
    exact runLimiter_fresh_aux L P hP ts [] last hlast t ht
  · intro w now hfalse
    rw [isAllowed_fst] at hfalse
    have hc : ¬ (w.filter (fun t => now - t < P)).length < L := of_decide_eq_false hfalse
    constructor
    · rw [isAllowed_snd, if_neg hc]
    · rw [isAllowed_snd, if_neg hc]
      exact List.length_filter_le _ w

/-- C10 (witness): the limiter as configured (`limit 10`, `period 60`), after
three calls: the window stays within the limit. -/
theorem rate_limiter_window_invariant_witness :
    0 < Config.RATE_LIMIT_PERIOD ∧
      (runLimiter Config.RATE_LIMIT Config.RATE_LIMIT_PERIOD [] [0, 30, 100]).2.length ≤
        Config.RATE_LIMIT :=
  ⟨by decide, (rate_limiter_window_invariant Config.RATE_LIMIT Config.RATE_LIMIT_PERIOD
    (by decide) [0, 30, 100]).1⟩

/-! ### Claims about the lookup endpoint -/

/-- Entry built for a cache hit in `fetch_cards` (lines 303-312 of
`src/app.py`). -/
def cachedEntry (c : CardData) : LookupEntry :=
  .card c.name c.oracle_text c.mana_cost c.type_line c.set_name
    (if c.found then "found" else "not found")

/-- C7: the `fetch_cards` loop maps each submitted name to its status: the
enqueue counter advances exactly once per cache miss (cached names enqueue
nothing), and the `i`-th entry is the cached record with status
`"found"`/`"not found"` on a hit, and `"queued"`/`"queue full"` according
to the outcome of the miss's own enqueue call otherwise. -/
theorem fetch_cards_statuses (cache : List (String × CardData)) (enq : Nat → Bool)
    (names : List String) (k : Nat) :
    ((fetchCards cache enq names k).2 = k + uncachedCount cache names) ∧
    (∀ i n, names[i]? = some n →
      (fetchCards cache enq names k).1[i]? = some (
        match cacheLookup cache n with
        | some c => cachedEntry c
        | none =>
          .pending n (if enq (k + uncachedCount cache (names.take i))
            then "queued" else "queue full"))) := by
  induction names generalizing k with
  | nil =>
    refine ⟨rfl, ?_⟩
    intro i n hn
    simp at hn
  | cons m rest ih =>
    constructor
    · cases hm : cacheLookup cache m with
      | some c =>
        simp only [fetchCards, hm, uncachedCount]
        exact (ih k).1
      | none =>
        simp only [fetchCards, hm, uncachedCount]
        rw [(ih (k + 1)).1]
        omega
    · intro i n hn
      cases i with
      | zero =>
        have hm : m = n := by simpa using hn
        subst hm
        cases hc : cacheLookup cache m with
        | some c => simp [fetchCards, hc, cachedEntry]
        | none => simp [fetchCards, hc, uncachedCount]
      | succ j =>
        have hj : rest[j]? = some n := by simpa using hn
        cases hc : cacheLookup cache m with
        | some c =>
          simp only [fetchCards, hc, List.getElem?_cons_succ, List.take_succ_cons,
            uncachedCount]
          exact (ih k).2 j n hj
        | none =>
          simp only [fetchCards, hc, List.getElem?_cons_succ, List.take_succ_cons,
            uncachedCount]
          have := (ih (k + 1)).2 j n hj
          rw [this]
          have harith : k + 1 + uncachedCount cache (rest.take j) =
              k + (uncachedCount cache (rest.take j) + 1) := by omega
          rw [harith]

/-- C7 (witness): one cached and one uncached name: the cached one reports
its record, the uncached one is enqueued (enqueue succeeding) and reported
queued. -/
theorem fetch_cards_statuses_witness :
    (fetchCards [("a", notFoundData "a")] (fun _ => true) ["a", "b"] 0).1[1]? =
      some (LookupEntry.pending "b" "queued") := by
  have h := (fetch_cards_statuses [("a", notFoundData "a")] (fun _ => true)
    ["a", "b"] 0).2 1 "b" rfl
  rw [h]
  rfl

/-! ### Claims about the concurrency ceiling -/

/-- The permit-count invariant of the semaphore: free permits plus in-flight
calls always total `MAX_CONCURRENT_REQUESTS`. -/
theorem semReachable_permit_invariant (tasks : Nat) (s : SemState)
    (h : SemReachable tasks s) :
    s.permits + s.inFlight = Config.MAX_CONCURRENT_REQUESTS := by
  induction h with
  | refl => rfl
  | tail hab hbc ih =>
    cases hbc with
    | acquire hw hp =>
      dsimp only
      omega
    | release hf =>
      dsimp only
      omega

/-- C9: under any burst of concurrent `fetch_card_info` invocations sharing
one `CardManager`, every reachable interleaving state has at most
`MAX_CONCURRENT_REQUESTS` upstream calls in flight; and any step that puts
one more call in flight requires a free permit — with none free, a waiting
invocation stays suspended. -/
theorem semaphore_concurrency_ceiling (tasks : Nat) (s : SemState)
    (h : SemReachable tasks s) :
    s.inFlight ≤ Config.MAX_CONCURRENT_REQUESTS ∧
    (∀ s2, SemStep s s2 → s.inFlight < s2.inFlight → 0 < s.permits) := by
  have hinv := semReachable_permit_invariant tasks s h
  constructor
  · omega
  · intro s2 hstep hgrow
    cases hstep with
    | acquire hw hp => exact hp
    | release hf =>
      dsimp only at hgrow
      omega

/-- C9 (witness): the initial burst state of seven invocations is reachable
and within the ceiling. -/
theorem semaphore_concurrency_ceiling_witness :
    SemReachable 7 (semInit 7) ∧
      (semInit 7).inFlight ≤ Config.MAX_CONCURRENT_REQUESTS :=
  ⟨Relation.ReflTransGen.refl,
    (semaphore_concurrency_ceiling 7 (semInit 7) Relation.ReflTransGen.refl).1⟩
